import Mathlib

/-!
Shallow embedding of `src/chalice/logs.py` (class `LogRetriever`).

Modelling conventions:

* Python strings are `List Char` (`PyStr`).
* An event dict is an ordered association list `Dict := List (PyStr × PyVal)`;
  `dlookup` returns the first binding, `dictSet` replaces the first binding in
  place (or appends a new one at the end, matching Python dict insertion order).
* `datetime.datetime.fromtimestamp(ms / 1000.0)` (`_convert_to_datetime`,
  lines 33-34) is modelled as the opaque-looking constructor
  `PyVal.datetimeOfMillis ms`: the IEEE-754 binary64 division and the
  `fromtimestamp` decoding are floating-point computations that are not
  modelled; the embedding only records that the stored value becomes a
  datetime object derived from the integer millisecond value.
* Python exceptions become the `Err` type.  The source can raise the builtin
  `KeyError` (a dict subscript on a missing key) and the builtin `IndexError`
  (`lambda_arn.split(':')[6]` on a short list).  A field bound to a value of an
  unexpected type would fail later inside `.strip()` / arithmetic; those
  failures are collapsed into a single `typeError` (no claim depends on them).
  The constructor `invalidIdentifierError` never appears in the source; it is
  part of the error vocabulary only so that the specification's statement
  about a dedicated `InvalidIdentifierError` can be expressed and compared
  with what the code actually raises.
* The generator `retrieve_logs` (lines 52-102) becomes an explicit iterator:
  `GenState` holds the not-yet-requested pages (`pending`), the remaining
  events of the current page (`current`), the running count `shown` of yielded
  events, and the number of pages requested so far.  `next` performs exactly
  the work done between two `yield` statements of the source: the cap check
  (which, in the source, sits textually after `yield`/`shown += 1` and
  therefore runs at resumption, i.e. at the entry of the next pull, and only
  ever runs once at least one event has been yielded — hence the `0 < shown`
  guard), then a scan of the current page and, when it is exhausted, of
  further pages, until the next non-filtered event is normalized and yielded.
  `runWithFuel n` pulls at most `n` elements, which models a consumer that
  stops after `n` pulls; `retrieve_logs` uses enough fuel to drain the source.
-/

namespace ChaliceLogs

/-- Python strings, modelled as lists of characters. -/
abbrev PyStr := List Char

/-- Values stored in an event dict.  `datetimeOfMillis ms` stands for the
`datetime.datetime` object built by `_convert_to_datetime` from the integer
millisecond value `ms` (the float computation itself is not modelled). -/
inductive PyVal where
  | str (s : PyStr)
  | int (n : Int)
  | datetimeOfMillis (ms : Int)
deriving DecidableEq, Repr

/-- An event dict: an ordered association list, as a Python `dict`. -/
abbrev Dict := List (PyStr × PyVal)

deriving instance DecidableEq for Except

/-- First binding of key `k`, as Python dict subscripting would find it. -/
def dlookup (d : Dict) (k : PyStr) : Option PyVal :=
  match d with
  | [] => none
  | (k', v) :: rest => if k' = k then some v else dlookup rest k

/-- Python `d[k] = v`: replace the binding of `k` in place, or append a fresh
binding at the end (Python dicts keep insertion order). -/
def dictSet (d : Dict) (k : PyStr) (v : PyVal) : Dict :=
  match d with
  | [] => [(k, v)]
  | (k', v') :: rest => if k' = k then (k, v) :: rest else (k', v') :: dictSet rest k v

/-- Exceptions the modelled code can raise.  See the module comment: the
source only ever produces `keyError`, `typeError` and `indexError`;
`invalidIdentifierError` exists only to state the specification's claim. -/
inductive Err where
  | keyError (k : PyStr)
  | typeError
  | indexError
  | invalidIdentifierError
deriving DecidableEq, Repr

/-- Read an integer field: `KeyError` when the key is absent (Python dict
subscript), `typeError` standing for the later failure a non-numeric value
would cause inside `_convert_to_datetime`. -/
def getInt (e : Dict) (k : PyStr) : Except Err Int :=
  match dlookup e k with
  | none => .error (.keyError k)
  | some (.int n) => .ok n
  | some _ => .error .typeError

/-- The `'message'` key. -/
def msgK : PyStr := "message".toList

/-- The `'timestamp'` key. -/
def tsK : PyStr := "timestamp".toList

/-- The `'ingestionTime'` key. -/
def ingK : PyStr := "ingestionTime".toList

/-- The `'logStreamName'` key. -/
def lsnK : PyStr := "logStreamName".toList

/-- The `'logShortId'` key. -/
def shortK : PyStr := "logShortId".toList

/-- Characters removed by Python `str.strip()` with no argument (ASCII
whitespace; the Unicode whitespace Python would also strip never occurs in
the literals any claim mentions). -/
def pyIsSpace (c : Char) : Bool :=
  c = ' ' || c = '\t' || c = '\n' || c = '\r' || c = '\x0b' || c = '\x0c'

/-- Python `s.strip()`. -/
def pyStrip (s : PyStr) : PyStr :=
  ((s.dropWhile pyIsSpace).reverse.dropWhile pyIsSpace).reverse

/-- Python `s.startswith(p)` for a single literal `p`. -/
def startswith (p s : PyStr) : Bool :=
  match p, s with
  | [], _ => true
  | _ :: _, [] => false
  | a :: ps, b :: ss => a = b && startswith ps ss

/-- Lines 36-50, `_is_lambda_message`: strip the message and test the three
literal `startswith` alternatives of the tuple argument. -/
def is_lambda_message (e : Dict) : Except Err Bool :=
  match dlookup e msgK with
  | none => .error (.keyError msgK)
  | some (.str m) =>
    let msg := pyStrip m
    .ok (startswith "START RequestId".toList msg ||
         startswith "END RequestId".toList msg ||
         startswith "REPORT RequestId".toList msg)
  | some _ => .error .typeError

/-- Lines 33-34, `_convert_to_datetime` (see the module comment about the
unmodelled float computation). -/
def convert_to_datetime (integer_timestamp : Int) : PyVal :=
  .datetimeOfMillis integer_timestamp

/-- Python `s.find(c)` for a single character: index of the first occurrence,
`-1` when absent. -/
def pyFind (c : Char) : PyStr → Int
  | [] => -1
  | a :: as =>
    if a = c then 0
    else
      let r := pyFind c as
      if r = -1 then -1 else r + 1

/-- Python `s[a:b]` for `0 ≤ a ≤ b`. -/
def pySlice (s : PyStr) (a b : Nat) : PyStr :=
  (s.drop a).take (b - a)

/-- Lines 94-97: derive the short identifier from `logStreamName`. -/
def shortIdOf (ident : PyStr) : PyStr :=
  if ident.contains ']' then
    let index := (pyFind ']' ident).toNat
    pySlice ident (index + 1) (index + 7)
  else ident

/-- Lines 84-98 of `retrieve_logs`: the normalization performed on one event
between the filter and the `yield`, in the source's order of dict accesses —
read and overwrite `'ingestionTime'`, then read and overwrite `'timestamp'`,
then read `'logStreamName'` and add `'logShortId'`.  The returned dict is the
event dict after the in-place assignments. -/
def normalizeEvent (e : Dict) : Except Err Dict :=
  match getInt e ingK with
  | .error err => .error err
  | .ok ing =>
    let e1 := dictSet e ingK (convert_to_datetime ing)
    match getInt e1 tsK with
    | .error err => .error err
    | .ok ts =>
      let e2 := dictSet e1 tsK (convert_to_datetime ts)
      match dlookup e2 lsnK with
      | none => .error (.keyError lsnK)
      | some (.str ident) => .ok (dictSet e2 shortK (.str (shortIdOf ident)))
      | some _ => .error .typeError

/-- Lines 87-99: the source assigns the converted fields back into the same
dict `event` and then yields that very dict.  The first component is the dict
as it remains in the page's event list after the loop body (Python mutated it
in place), the second is the yielded value; they are the same object. -/
def processEvent (e : Dict) : Except Err (Dict × Dict) :=
  match normalizeEvent e with
  | .error err => .error err
  | .ok d => .ok (d, d)

/-- Scan the remaining events of the current page for the next event to
yield: filtered-out events are passed over (`continue`, line 83), the first
surviving event is normalized.  Returns the normalized event together with
the events remaining after it. -/
def scanEvents (incl : Bool) : List Dict → Except Err (Option (Dict × List Dict))
  | [] => .ok none
  | e :: rest =>
    if incl then
      match normalizeEvent e with
      | .error err => .error err
      | .ok d => .ok (some (d, rest))
    else
      match is_lambda_message e with
      | .error err => .error err
      | .ok true => scanEvents incl rest
      | .ok false =>
        match normalizeEvent e with
        | .error err => .error err
        | .ok d => .ok (some (d, rest))

/-- Scan the not-yet-requested pages for the next event to yield.  Returns the
normalized event, the events remaining after it in its page, the pages after
that page, and how many pages were requested during the scan. -/
def scanPages (incl : Bool) : List (List Dict) → Except Err (Option (Dict × List Dict × List (List Dict) × Nat))
  | [] => .ok none
  | p :: ps =>
    match scanEvents incl p with
    | .error err => .error err
    | .ok (some (d, rest)) => .ok (some (d, rest, ps, 1))
    | .ok none =>
      match scanPages incl ps with
      | .error err => .error err
      | .ok none => .ok none
      | .ok (some (d, rest, ps', t)) => .ok (some (d, rest, ps', t + 1))

/-- Iterator state of the generator (spec §9's explicit cursor): pages not yet
requested from the paginator, events remaining in the current page, number of
events yielded so far (`shown`), and number of pages requested so far. -/
structure GenState where
  pending : List (List Dict)
  current : List Dict
  shown : Nat
  pagesRequested : Nat
deriving DecidableEq, Repr

/-- Lines 100-102, `shown >= max_entries`, as evaluated at resumption after a
yield: `shown` already counts the yielded events, and the check has only ever
run after at least one yield, hence the `0 < shown` guard. -/
def capReached (max_entries : Option Int) (shown : Nat) : Bool :=
  match max_entries with
  | none => false
  | some k => decide (0 < shown) && decide (k ≤ (shown : Int))

/-- One pull on the generator: the work between two `yield` statements of
`retrieve_logs`.  Returns the yielded event (or `none` at normal end of the
sequence) and the successor state. -/
def next (incl : Bool) (max_entries : Option Int) (s : GenState) :
    Except Err (Option Dict × GenState) :=
  if capReached max_entries s.shown then .ok (none, s)
  else
    match scanEvents incl s.current with
    | .error err => .error err
    | .ok (some (d, rest)) =>
      .ok (some d, { s with current := rest, shown := s.shown + 1 })
    | .ok none =>
      match scanPages incl s.pending with
      | .error err => .error err
      | .ok none =>
        .ok (none, { pending := [], current := [], shown := s.shown,
                     pagesRequested := s.pagesRequested + s.pending.length })
      | .ok (some (d, rest, ps', t)) =>
        .ok (some d, { pending := ps', current := rest, shown := s.shown + 1,
                       pagesRequested := s.pagesRequested + t })

/-- Pull at most `fuel` elements from the generator.  Returns the yielded
events in order, the state after the last completed pull, and the error, if
one was raised (in which case the events yielded before it are still
reported, as a consumer of the Python generator would have received them). -/
def runWithFuel (incl : Bool) (max_entries : Option Int) :
    Nat → GenState → List Dict × GenState × Option Err
  | 0, s => ([], s, none)
  | fuel + 1, s =>
    match next incl max_entries s with
    | .error err => ([], s, some err)
    | .ok (none, s') => ([], s', none)
    | .ok (some d, s') =>
      let (l, s'', r) := runWithFuel incl max_entries fuel s'
      (d :: l, s'', r)

/-- Initial generator state: no page requested yet (`paginator.paginate` is
lazy; the first page is fetched on the first iteration of the outer loop). -/
def initState (pages : List (List Dict)) : GenState :=
  { pending := pages, current := [], shown := 0, pagesRequested := 0 }

/-- A consumer that performs at most `n` pulls on the sequence returned by
`retrieve_logs`. -/
def consume (incl : Bool) (max_entries : Option Int) (n : Nat)
    (pages : List (List Dict)) : List Dict × GenState × Option Err :=
  runWithFuel incl max_entries n (initState pages)

/-- Enough pulls to drain the source: every successful pull yields one event,
and at most one further pull is needed to observe the end of the sequence. -/
def totalFuel (pages : List (List Dict)) : Nat :=
  (pages.map List.length).sum + 1

/-- Lines 52-102, `retrieve_logs`, fully consumed: the whole sequence of
yielded events, the final iterator state, and the error the traversal raised,
if any. -/
def retrieve_logs (incl : Bool) (max_entries : Option Int)
    (pages : List (List Dict)) : List Dict × GenState × Option Err :=
  consume incl max_entries (totalFuel pages) pages

/-- Python `s.split(c)` for a single-character separator: split at every
occurrence, keeping empty segments (`''.split(':') == ['']`). -/
def pySplit (c : Char) : PyStr → List PyStr
  | [] => [[]]
  | a :: as =>
    match pySplit c as with
    | [] => [[]]
    | g :: gs => if a = c then [] :: g :: gs else (a :: g) :: gs

/-- Lines 16-31, `create_from_arn`: `lambda_arn.split(':')[6]` (an
out-of-range index raises the builtin `IndexError`), then
`'/aws/lambda/%s' % lambda_name`.  The boto3 client is not a parameter
because the source never touches it here; the function returns the
`log_group_name` the constructed `LogRetriever` is given. -/
def create_from_arn (lambda_arn : PyStr) : Except Err PyStr :=
  let parts := pySplit ':' lambda_arn
  match parts[6]? with
  | none => .error .indexError
  | some lambda_name => .ok ("/aws/lambda/".toList ++ lambda_name)

/-! ### Pure views used to state properties

The following definitions are pure restatements of the partial functions
above, used inside theorem statements; lemmas below connect them to the
`Except`-valued code under the well-formedness predicate `wfEvent`. -/

/-- Integer value of a field, defaulting to `0` (only used under `wfEvent`). -/
def intAt (e : Dict) (k : PyStr) : Int :=
  match dlookup e k with
  | some (.int n) => n
  | _ => 0

/-- String value of a field, defaulting to `[]` (only used under `wfEvent`). -/
def strAt (e : Dict) (k : PyStr) : PyStr :=
  match dlookup e k with
  | some (.str s) => s
  | _ => []

/-- Pure form of `is_lambda_message` (meaningful under `wfEvent`). -/
def isLambdaMsgB (e : Dict) : Bool :=
  let msg := pyStrip (strAt e msgK)
  startswith "START RequestId".toList msg ||
  startswith "END RequestId".toList msg ||
  startswith "REPORT RequestId".toList msg

/-- Does the event survive the filter of lines 82-83? -/
def keeps (incl : Bool) (e : Dict) : Bool :=
  incl || !(isLambdaMsgB e)

/-- Pure form of `normalizeEvent` (agrees with it under `wfEvent`). -/
def normOk (e : Dict) : Dict :=
  let e1 := dictSet e ingK (convert_to_datetime (intAt e ingK))
  let e2 := dictSet e1 tsK (convert_to_datetime (intAt e1 tsK))
  dictSet e2 shortK (.str (shortIdOf (strAt e2 lsnK)))

/-- Is the optional value an integer? -/
def isIntV : Option PyVal → Bool
  | some (.int _) => true
  | _ => false

/-- Is the optional value a string? -/
def isStrV : Option PyVal → Bool
  | some (.str _) => true
  | _ => false

/-- The event carries the four fields the loop body reads, with the types the
external source delivers (`eventId` is never read and is unconstrained). -/
def wfEvent (e : Dict) : Bool :=
  isStrV (dlookup e msgK) && isIntV (dlookup e tsK) &&
  isIntV (dlookup e ingK) && isStrV (dlookup e lsnK)

/-- All events of a page are well-formed. -/
def wfPage (p : List Dict) : Bool :=
  p.all wfEvent

/-- All events of all pages are well-formed. -/
def wfPages (ps : List (List Dict)) : Bool :=
  ps.all wfPage

/-- Number of events of a page surviving the filter. -/
def eligCount (incl : Bool) (p : List Dict) : Nat :=
  (p.filter (keeps incl)).length

/-- Number of events of all pages surviving the filter. -/
def totalElig (incl : Bool) (ps : List (List Dict)) : Nat :=
  eligCount incl ps.flatten

/-- Number of pages that must be requested before `m ≥ 1` events surviving
the filter have been seen (every page up to and including the page holding
the `m`-th such event). -/
def pagesNeeded (incl : Bool) (m : Nat) : List (List Dict) → Nat
  | [] => 0
  | p :: ps => if m ≤ eligCount incl p then 1 else 1 + pagesNeeded incl (m - eligCount incl p) ps

/-- First event of a page surviving the filter, with the events after it. -/
def firstEligPage (incl : Bool) : List Dict → Option (Dict × List Dict)
  | [] => none
  | e :: rest => if keeps incl e then some (e, rest) else firstEligPage incl rest

/-- First event of a list of pages surviving the filter, with the events
after it in its page, the pages after that page, and the number of pages
scanned. -/
def firstEligPages (incl : Bool) : List (List Dict) → Option (Dict × List Dict × List (List Dict) × Nat)
  | [] => none
  | p :: ps =>
    match firstEligPage incl p with
    | some (e, rest) => some (e, rest, ps, 1)
    | none =>
      match firstEligPages incl ps with
      | none => none
      | some (e, rest, ps', t) => some (e, rest, ps', t + 1)

/-! ### Concrete sample data used by witnesses and counterexamples -/

/-- A well-formed application event with the stream name of the spec's
`logShortId` example. -/
def sampleEvent : Dict :=
  [(msgK, .str "hello world".toList),
   (tsK, .int 1467709200000),
   (ingK, .int 1467709200123),
   (lsnK, .str "2016/07/05/[abc123]d4e5f6g7h8".toList)]

/-- A well-formed Lambda service event (`START RequestId` message). -/
def sampleLambdaEvent : Dict :=
  [(msgK, .str "START RequestId: 1234 Version: $LATEST".toList),
   (tsK, .int 5),
   (ingK, .int 6),
   (lsnK, .str "2016/07/05/[abc123]d4e5f6g7h8".toList)]

/-- A second well-formed application event, stream name without `]`. -/
def sampleEventB : Dict :=
  [(msgK, .str "second".toList),
   (tsK, .int 7),
   (ingK, .int 8),
   (lsnK, .str "nobracket".toList)]

/-- An event with no `'message'` binding at all (the other three fields are
present and well-typed). -/
def sampleNoMessageEvent : Dict :=
  [(tsK, .int 1),
   (ingK, .int 2),
   (lsnK, .str "stream".toList)]

/-! ### Dictionary lemmas -/

theorem dlookup_dictSet_self (d : Dict) (k : PyStr) (v : PyVal) :
    dlookup (dictSet d k v) k = some v := by
  induction d with
  | nil => simp [dictSet, dlookup]
  | cons kv rest ih =>
    obtain ⟨k', v'⟩ := kv
    by_cases h : k' = k <;> simp [dictSet, dlookup, h, ih]

theorem dlookup_dictSet_ne (d : Dict) (k k' : PyStr) (v : PyVal) (h : k' ≠ k) :
    dlookup (dictSet d k v) k' = dlookup d k' := by
  induction d with
  | nil => simp [dictSet, dlookup, Ne.symm h]
  | cons kv rest ih =>
    obtain ⟨k₀, v₀⟩ := kv
    by_cases h0 : k₀ = k
    · subst h0
      simp [dictSet, dlookup, Ne.symm h]
    · by_cases h1 : k₀ = k'
      · subst h1
        simp [dictSet, dlookup, h0]
      · simp [dictSet, dlookup, h0, h1, ih]

/-! ### Distinctness of the field keys -/

theorem tsK_ne_ingK : tsK ≠ ingK := by decide
theorem lsnK_ne_ingK : lsnK ≠ ingK := by decide
theorem lsnK_ne_tsK : lsnK ≠ tsK := by decide
theorem ingK_ne_tsK : ingK ≠ tsK := by decide
theorem tsK_ne_shortK : tsK ≠ shortK := by decide
theorem ingK_ne_shortK : ingK ≠ shortK := by decide

/-! ### `pyFind` and `shortIdOf` -/

theorem pyFind_eq_of_first (c : Char) :
    ∀ (s : PyStr) (i : Nat), s[i]? = some c → (∀ j, j < i → s[j]? ≠ some c) →
      pyFind c s = (i : Int) := by
  intro s
  induction s with
  | nil => intro i h _; simp at h
  | cons a as ih =>
    intro i h hmin
    by_cases ha : a = c
    · have hi : i = 0 := by
        by_contra h0
        exact hmin 0 (Nat.pos_of_ne_zero h0) (by simp [ha])
      subst hi
      simp [pyFind, ha]
    · have hi : i ≠ 0 := by
        intro h0
        subst h0
        simp only [List.getElem?_cons_zero, Option.some.injEq] at h
        exact ha h
      obtain ⟨i', rfl⟩ := Nat.exists_eq_succ_of_ne_zero hi
      have h' : as[i']? = some c := by simpa using h
      have hmin' : ∀ j, j < i' → as[j]? ≠ some c := by
        intro j hj hc
        exact hmin (j + 1) (by omega) (by simpa using hc)
      have hfind := ih i' h' hmin'
      have hne : ((i' : Nat) : Int) ≠ -1 := by omega
      simp only [pyFind, if_neg ha, hfind, if_neg hne]
      push_cast
      ring

theorem contains_of_getElem (s : PyStr) (i : Nat) (c : Char)
    (h : s[i]? = some c) : s.contains c = true := by
  have hm : c ∈ s := by
    rcases List.getElem?_eq_some.1 h with ⟨hlt, rfl⟩
    exact List.getElem_mem hlt
  simpa using hm

/-! ### `create_from_arn` and `pySplit` -/

theorem pySplit_ne_nil (c : Char) (s : PyStr) : pySplit c s ≠ [] := by
  cases s with
  | nil => simp [pySplit]
  | cons a as =>
    simp only [pySplit]
    rcases h : pySplit c as with _ | ⟨g, gs⟩
    · simp
    · by_cases hac : a = c <;> simp [hac]

theorem pySplit_length (c : Char) (s : PyStr) :
    (pySplit c s).length = s.count c + 1 := by
  induction s with
  | nil => simp [pySplit]
  | cons a as ih =>
    rcases h : pySplit c as with _ | ⟨g, gs⟩
    · exact absurd h (pySplit_ne_nil c as)
    · have ih' : gs.length + 1 = as.count c + 1 := by
        rw [h] at ih
        simpa using ih
      by_cases hac : a = c
      · subst hac
        simp [pySplit, h, List.count_cons]
        omega
      · have hca : (c == a) = false := by
          simp [Ne.symm hac]
        simp [pySplit, h, hac, List.count_cons, hca]
        omega

/-- C3: for every yielded event, `logShortId` is derived from `logStreamName`
by `shortIdOf`: if `']'` first occurs at index `i`, the result is the
substring from `i+1` up to (exclusive) `i+7`, hence at most 6 characters; if
no `']'` occurs the result is the full string unchanged; on the spec's
example `"2016/07/05/[abc123]d4e5f6g7h8"` the result is `"d4e5f6"`; and the
normalized event binds `logShortId` to exactly `shortIdOf` of the event's
`logStreamName`. -/
theorem c3_log_short_id :
    (∀ (s : PyStr) (i : Nat), s[i]? = some ']' → (∀ j, j < i → s[j]? ≠ some ']') →
      shortIdOf s = (s.drop (i + 1)).take 6 ∧ (shortIdOf s).length ≤ 6)
    ∧ (∀ s : PyStr, s.contains ']' = false → shortIdOf s = s)
    ∧ shortIdOf "2016/07/05/[abc123]d4e5f6g7h8".toList = "d4e5f6".toList
    ∧ (∀ e : Dict, dlookup (normOk e) shortK = some (.str (shortIdOf (strAt e lsnK)))) := by
  refine ⟨?_, ?_, by decide, ?_⟩
  · intro s i h hmin
    have hc : s.contains ']' = true := contains_of_getElem s i ']' h
    have hf : pyFind ']' s = (i : Int) := pyFind_eq_of_first ']' s i h hmin
    have htake : shortIdOf s = (s.drop (i + 1)).take 6 := by
      unfold shortIdOf
      rw [if_pos hc, hf, Int.toNat_natCast]
      show (s.drop (i + 1)).take (i + 7 - (i + 1)) = (s.drop (i + 1)).take 6
      congr 1
      omega
    refine ⟨htake, ?_⟩
    rw [htake, List.length_take]
    exact Nat.min_le_left 6 _
  · intro s hc
    have hnc : ¬(s.contains ']' = true) := by
      rw [hc]
      simp
    unfold shortIdOf
    rw [if_neg hnc]
  · intro e
    have h1 : dlookup (normOk e) shortK =
        some (.str (shortIdOf (strAt (dictSet (dictSet e ingK (convert_to_datetime (intAt e ingK))) tsK
          (convert_to_datetime (intAt (dictSet e ingK (convert_to_datetime (intAt e ingK))) tsK))) lsnK))) := by
      simp [normOk, dlookup_dictSet_self]
    rw [h1]
    have h2 : ∀ d : Dict, strAt (dictSet (dictSet d ingK (convert_to_datetime (intAt d ingK))) tsK
        (convert_to_datetime (intAt (dictSet d ingK (convert_to_datetime (intAt d ingK))) tsK))) lsnK
        = strAt d lsnK := by
      intro d
      simp [strAt, dlookup_dictSet_ne _ _ _ _ lsnK_ne_tsK, dlookup_dictSet_ne _ _ _ _ lsnK_ne_ingK]
    rw [h2]

/-- Witness for C3 at concrete inputs: stream name `"a]bcdefgh"` has its
first `']'` at index 1 and yields short id `"bcdefg"`. -/
theorem c3_log_short_id_witness :
    shortIdOf "a]bcdefgh".toList = ("a]bcdefgh".toList.drop 2).take 6
    ∧ (shortIdOf "a]bcdefgh".toList).length ≤ 6
    ∧ shortIdOf "nobracket".toList = "nobracket".toList := by
  refine ⟨?_, ?_, ?_⟩
  · exact (c3_log_short_id.1 "a]bcdefgh".toList 1 (by decide) (by decide)).1
  · exact (c3_log_short_id.1 "a]bcdefgh".toList 1 (by decide) (by decide)).2
  · exact c3_log_short_id.2.1 "nobracket".toList (by decide)

/-- C5: if segment index 6 of the colon-split function identifier exists
(equivalently, the identifier has at least 7 colon-delimited segments, i.e.
at least 6 colons), `create_from_arn` produces the log group name
`"/aws/lambda/"` concatenated with that segment. -/
theorem c5_arn_log_group (arn : PyStr) (seg : PyStr)
    (h6 : (pySplit ':' arn)[6]? = some seg) :
    create_from_arn arn = .ok ("/aws/lambda/".toList ++ seg)
    ∧ (pySplit ':' arn).length = arn.count ':' + 1
    ∧ 7 ≤ (pySplit ':' arn).length := by
  refine ⟨?_, pySplit_length ':' arn, ?_⟩
  · simp [create_from_arn, h6]
  · rcases List.getElem?_eq_some.1 h6 with ⟨hlt, _⟩
    omega

/-- Witness for C5 on a concrete 7-segment ARN. -/
theorem c5_arn_log_group_witness :
    create_from_arn "arn:aws:lambda:us-west-2:123:function:myfn".toList
      = .ok ("/aws/lambda/".toList ++ "myfn".toList)
    ∧ (pySplit ':' "arn:aws:lambda:us-west-2:123:function:myfn".toList).length
      = "arn:aws:lambda:us-west-2:123:function:myfn".toList.count ':' + 1 := by
  have h := c5_arn_log_group "arn:aws:lambda:us-west-2:123:function:myfn".toList
    "myfn".toList (by decide)
  exact ⟨h.1, h.2.1⟩

/-- C6 counterexample: on an identifier with fewer than 7 colon-delimited
segments the constructor fails with the builtin `IndexError` raised by
`lambda_arn.split(':')[6]`, not with a dedicated `InvalidIdentifierError`
(no such error exists anywhere in the source). -/
theorem c6_claim_false :
    create_from_arn "arn:aws:lambda".toList = .error .indexError
    ∧ create_from_arn "arn:aws:lambda".toList ≠ .error .invalidIdentifierError := by
  constructor
  · decide
  · decide

/-- C6 as amended: for every function identifier with fewer than 7
colon-delimited segments (at most 5 colons), `create_from_arn` fails with the
builtin `IndexError`; the failure happens in the constructor itself, which in
this model is a pure function of the identifier alone — the injected client
is never consulted. -/
theorem c6_index_error (arn : PyStr) (h : arn.count ':' < 6) :
    create_from_arn arn = .error .indexError := by
  have hlen : (pySplit ':' arn).length < 7 := by
    rw [pySplit_length]
    omega
  have h6 : (pySplit ':' arn)[6]? = none := by
    rw [List.getElem?_eq_none]
    omega
  simp [create_from_arn, h6]

/-- Witness for C6 (amended) on a concrete 3-segment identifier. -/
theorem c6_index_error_witness :
    create_from_arn "arn:aws:lambda".toList = .error .indexError :=
  c6_index_error "arn:aws:lambda".toList (by decide)

/-! ### Behaviour of `normalizeEvent` -/

theorem isIntV_iff (o : Option PyVal) : isIntV o = true ↔ ∃ n, o = some (.int n) := by
  rcases o with _ | v
  · simp [isIntV]
  · rcases v <;> simp [isIntV]

theorem isStrV_iff (o : Option PyVal) : isStrV o = true ↔ ∃ s, o = some (.str s) := by
  rcases o with _ | v
  · simp [isStrV]
  · rcases v <;> simp [isStrV]

theorem normalizeEvent_missing_ing (e : Dict) (h : dlookup e ingK = none) :
    normalizeEvent e = .error (.keyError ingK) := by
  simp [normalizeEvent, getInt, h]

theorem normalizeEvent_missing_ts (e : Dict) (n : Int)
    (hing : dlookup e ingK = some (.int n)) (h : dlookup e tsK = none) :
    normalizeEvent e = .error (.keyError tsK) := by
  have h1 : dlookup (dictSet e ingK (convert_to_datetime n)) tsK = none := by
    rw [dlookup_dictSet_ne _ _ _ _ tsK_ne_ingK, h]
  simp [normalizeEvent, getInt, hing, h1]

theorem normalizeEvent_missing_lsn (e : Dict) (n m : Int)
    (hing : dlookup e ingK = some (.int n)) (hts : dlookup e tsK = some (.int m))
    (h : dlookup e lsnK = none) :
    normalizeEvent e = .error (.keyError lsnK) := by
  have h1 : dlookup (dictSet e ingK (convert_to_datetime n)) tsK = some (.int m) := by
    rw [dlookup_dictSet_ne _ _ _ _ tsK_ne_ingK, hts]
  have h2 : dlookup (dictSet (dictSet e ingK (convert_to_datetime n)) tsK
      (convert_to_datetime m)) lsnK = none := by
    rw [dlookup_dictSet_ne _ _ _ _ lsnK_ne_tsK, dlookup_dictSet_ne _ _ _ _ lsnK_ne_ingK, h]
  simp [normalizeEvent, getInt, hing, h1, h2]

theorem normalizeEvent_wf (e : Dict) (h : wfEvent e = true) :
    normalizeEvent e = .ok (normOk e) := by
  have h' := h
  simp only [wfEvent, Bool.and_eq_true] at h'
  obtain ⟨⟨⟨hmsg, hts⟩, hing⟩, hlsn⟩ := h'
  rcases (isIntV_iff _).1 hing with ⟨ni, hni⟩
  rcases (isIntV_iff _).1 hts with ⟨nt, hnt⟩
  rcases (isStrV_iff _).1 hlsn with ⟨sl, hsl⟩
  have h1 : dlookup (dictSet e ingK (convert_to_datetime ni)) tsK = some (.int nt) := by
    rw [dlookup_dictSet_ne _ _ _ _ tsK_ne_ingK, hnt]
  have h2 : dlookup (dictSet (dictSet e ingK (convert_to_datetime ni)) tsK
      (convert_to_datetime nt)) lsnK = some (.str sl) := by
    rw [dlookup_dictSet_ne _ _ _ _ lsnK_ne_tsK, dlookup_dictSet_ne _ _ _ _ lsnK_ne_ingK, hsl]
  simp [normalizeEvent, getInt, hni, h1, h2, normOk, intAt, strAt, hni, h1, h2]

theorem is_lambda_message_wf (e : Dict) (h : wfEvent e = true) :
    is_lambda_message e = .ok (isLambdaMsgB e) := by
  have h' := h
  simp only [wfEvent, Bool.and_eq_true] at h'
  obtain ⟨⟨⟨hmsg, _⟩, _⟩, _⟩ := h'
  rcases (isStrV_iff _).1 hmsg with ⟨m, hm⟩
  simp [is_lambda_message, hm, isLambdaMsgB, strAt]

/-- The filter lets an event through exactly when `incl = true` or
`_is_lambda_message` answers `False`. -/
theorem scanEvents_cons_keep (incl : Bool) (e : Dict) (rest : List Dict)
    (hk : incl = true ∨ is_lambda_message e = .ok false) :
    scanEvents incl (e :: rest) =
      match normalizeEvent e with
      | .error err => .error err
      | .ok d => .ok (some (d, rest)) := by
  rcases hk with h | h
  · subst h
    simp [scanEvents]
  · cases incl with
    | true => simp [scanEvents]
    | false => simp [scanEvents, h]

/-! ### Claim C8: what normalization does to the raw event -/

/-- C8 counterexample: on a concrete well-formed raw event, the dict left in
the page after the loop body (first component of `processEvent`) is the
normalized dict, not the unchanged raw event; the yielded value is that very
same dict; the raw integer `timestamp` has been overwritten by a datetime
and a `logShortId` binding has appeared. -/
theorem c8_claim_false :
    processEvent sampleEvent = .ok (normOk sampleEvent, normOk sampleEvent)
    ∧ normOk sampleEvent ≠ sampleEvent
    ∧ dlookup sampleEvent shortK = none
    ∧ dlookup (normOk sampleEvent) shortK = some (.str "d4e5f6".toList)
    ∧ dlookup sampleEvent tsK ≠ dlookup (normOk sampleEvent) tsK := by
  refine ⟨by decide, by decide, by decide, by decide, by decide⟩

/-- C8 as amended: normalization mutates the delivered raw event in place —
the value yielded and the value left in the source's page are the same dict,
whose `timestamp` and `ingestionTime` bindings have been overwritten with the
converted datetimes and which has gained a `logShortId` binding. -/
theorem c8_in_place (e d y : Dict) (h : processEvent e = .ok (d, y)) :
    d = y
    ∧ (∀ n, dlookup e tsK = some (.int n) → dlookup y tsK = some (convert_to_datetime n))
    ∧ (∀ n, dlookup e ingK = some (.int n) → dlookup y ingK = some (convert_to_datetime n))
    ∧ (dlookup y shortK).isSome = true := by
  unfold processEvent at h
  cases hn : normalizeEvent e with
  | error err =>
    rw [hn] at h
    exact absurd h (by simp)
  | ok v =>
    rw [hn] at h
    simp only [Except.ok.injEq, Prod.mk.injEq] at h
    obtain ⟨hd, hy⟩ := h
    subst hd; subst hy
    unfold normalizeEvent at hn
    cases hging : getInt e ingK with
    | error err =>
      rw [hging] at hn
      exact absurd hn (by simp)
    | ok ing =>
      rw [hging] at hn
      dsimp only at hn
      cases hgts : getInt (dictSet e ingK (convert_to_datetime ing)) tsK with
      | error err =>
        rw [hgts] at hn
        exact absurd hn (by simp)
      | ok ts =>
        rw [hgts] at hn
        dsimp only at hn
        cases hlsn : dlookup (dictSet (dictSet e ingK (convert_to_datetime ing)) tsK
            (convert_to_datetime ts)) lsnK with
        | none =>
          rw [hlsn] at hn
          exact absurd hn (by simp)
        | some val =>
          rw [hlsn] at hn
          cases val with
          | str ident =>
            simp only [Except.ok.injEq] at hn
            subst hn
            refine ⟨rfl, ?_, ?_, ?_⟩
            · intro n hts
              have he1 : dlookup (dictSet e ingK (convert_to_datetime ing)) tsK
                  = some (.int n) := by
                rw [dlookup_dictSet_ne _ _ _ _ tsK_ne_ingK, hts]
              have hts' : ts = n := by
                unfold getInt at hgts
                rw [he1] at hgts
                simpa using hgts.symm
              subst hts'
              rw [dlookup_dictSet_ne _ _ _ _ tsK_ne_shortK, dlookup_dictSet_self]
            · intro n hingv
              have hing' : ing = n := by
                unfold getInt at hging
                rw [hingv] at hging
                simpa using hging.symm
              subst hing'
              rw [dlookup_dictSet_ne _ _ _ _ ingK_ne_shortK,
                dlookup_dictSet_ne _ _ _ _ ingK_ne_tsK, dlookup_dictSet_self]
            · rw [dlookup_dictSet_self]
              rfl
          | int n =>
            exact absurd hn (by simp)
          | datetimeOfMillis ms =>
            exact absurd hn (by simp)

/-- Witness for C8 (amended) at the concrete sample event. -/
theorem c8_in_place_witness :
    normOk sampleEvent = normOk sampleEvent
    ∧ dlookup (normOk sampleEvent) tsK = some (convert_to_datetime 1467709200000)
    ∧ dlookup (normOk sampleEvent) ingK = some (convert_to_datetime 1467709200123)
    ∧ (dlookup (normOk sampleEvent) shortK).isSome = true := by
  have h := c8_in_place sampleEvent (normOk sampleEvent) (normOk sampleEvent) (by decide)
  exact ⟨h.1 ▸ rfl, h.2.1 1467709200000 (by decide), h.2.2.1 1467709200123 (by decide),
    h.2.2.2⟩

/-! ### Claim C7: events with missing fields -/

/-- Helper: a pull fails when the scan of the current page fails. -/
theorem next_error_of_scan (incl : Bool) (max_entries : Option Int) (s : GenState)
    (err : Err) (hcap : capReached max_entries s.shown = false)
    (h : scanEvents incl s.current = .error err) :
    next incl max_entries s = .error err := by
  simp [next, hcap, h]

/-- C7 counterexample: an event delivered without the required `message`
field is, when `include_lambda_messages` is true, neither detected nor
skipped: traversal normalizes and yields it and ends normally with no error
of any kind. -/
theorem c7_claim_false :
    dlookup sampleNoMessageEvent msgK = none
    ∧ (retrieve_logs true none [[sampleNoMessageEvent]]).2.2 = none
    ∧ (retrieve_logs true none [[sampleNoMessageEvent]]).1.length = 1 := by
  refine ⟨by decide, by decide, by decide⟩

/-- C7 as amended: an event that reaches normalization (it survives the
filter) and lacks `ingestionTime`, `timestamp` or `logStreamName` makes the
pull that processes it fail with the builtin `KeyError` naming the first
missing field in the source's access order (`ingestionTime`, then
`timestamp`, then `logStreamName`); the event is not skipped and traversal
does not continue past it.  A missing `message` is only ever detected when
`include_lambda_messages` is false, as a `KeyError` raised by the filter. -/
theorem c7_key_error (incl : Bool) (max_entries : Option Int)
    (ps : List (List Dict)) (sh pr : Nat) (e : Dict) (rest : List Dict)
    (hcap : capReached max_entries sh = false) :
    (((incl = true ∨ is_lambda_message e = .ok false) → dlookup e ingK = none →
        next incl max_entries ⟨ps, e :: rest, sh, pr⟩ = .error (.keyError ingK))
    ∧ (∀ n, (incl = true ∨ is_lambda_message e = .ok false) →
        dlookup e ingK = some (.int n) → dlookup e tsK = none →
        next incl max_entries ⟨ps, e :: rest, sh, pr⟩ = .error (.keyError tsK))
    ∧ (∀ n m, (incl = true ∨ is_lambda_message e = .ok false) →
        dlookup e ingK = some (.int n) → dlookup e tsK = some (.int m) →
        dlookup e lsnK = none →
        next incl max_entries ⟨ps, e :: rest, sh, pr⟩ = .error (.keyError lsnK))
    ∧ (incl = false → dlookup e msgK = none →
        next incl max_entries ⟨ps, e :: rest, sh, pr⟩ = .error (.keyError msgK))) := by
  refine ⟨?_, ?_, ?_, ?_⟩
  · intro hk hing
    refine next_error_of_scan _ _ _ _ hcap ?_
    rw [scanEvents_cons_keep incl e rest hk, normalizeEvent_missing_ing e hing]
  · intro n hk hing hts
    refine next_error_of_scan _ _ _ _ hcap ?_
    rw [scanEvents_cons_keep incl e rest hk, normalizeEvent_missing_ts e n hing hts]
  · intro n m hk hing hts hlsn
    refine next_error_of_scan _ _ _ _ hcap ?_
    rw [scanEvents_cons_keep incl e rest hk, normalizeEvent_missing_lsn e n m hing hts hlsn]
  · intro hincl hmsg
    subst hincl
    refine next_error_of_scan _ _ _ _ hcap ?_
    have hmsge : is_lambda_message e = .error (.keyError msgK) := by
      simp [is_lambda_message, hmsg]
    simp [scanEvents, hmsge]

/-- Witness for C7 (amended): a concrete event lacking `ingestionTime` makes
the pull fail with `KeyError('ingestionTime')`. -/
theorem c7_key_error_witness :
    next true none ⟨[], [[(msgK, .str "x".toList)]], 0, 1⟩
      = .error (.keyError ingK) :=
  (c7_key_error true none [] 0 1 [(msgK, .str "x".toList)] [] (by decide)).1
    (Or.inl rfl) (by decide)

/-! ### Structure of the first eligible event -/

theorem wfPage_cons (e : Dict) (p : List Dict) :
    wfPage (e :: p) = true ↔ wfEvent e = true ∧ wfPage p = true := by
  simp only [wfPage, List.all_cons, Bool.and_eq_true]

theorem wfPages_cons (p : List Dict) (ps : List (List Dict)) :
    wfPages (p :: ps) = true ↔ wfPage p = true ∧ wfPages ps = true := by
  simp only [wfPages, List.all_cons, Bool.and_eq_true]

theorem firstEligPage_none_filter (incl : Bool) :
    ∀ p : List Dict, firstEligPage incl p = none → p.filter (keeps incl) = [] := by
  intro p
  induction p with
  | nil => intro _; rfl
  | cons e rest ih =>
    intro h
    by_cases hk : keeps incl e = true
    · simp [firstEligPage, hk] at h
    · simp only [firstEligPage, hk, if_false] at h
      simp [List.filter_cons, hk, ih h]

theorem firstEligPage_some_spec (incl : Bool) :
    ∀ (p : List Dict) (e : Dict) (rest : List Dict),
      firstEligPage incl p = some (e, rest) →
      p.filter (keeps incl) = e :: rest.filter (keeps incl)
      ∧ keeps incl e = true
      ∧ (wfPage p = true → wfEvent e = true ∧ wfPage rest = true) := by
  intro p
  induction p with
  | nil => intro e rest h; simp [firstEligPage] at h
  | cons a as ih =>
    intro e rest h
    by_cases hk : keeps incl a = true
    · simp only [firstEligPage, hk, if_true, Option.some.injEq, Prod.mk.injEq] at h
      obtain ⟨rfl, rfl⟩ := h
      refine ⟨by simp [List.filter_cons, hk], hk, ?_⟩
      intro hwf
      exact (wfPage_cons _ _).1 hwf
    · simp only [firstEligPage, hk, if_false] at h
      obtain ⟨h1, h2, h3⟩ := ih e rest h
      refine ⟨by simp [List.filter_cons, hk, h1], h2, ?_⟩
      intro hwf
      exact h3 ((wfPage_cons _ _).1 hwf).2

/-- `firstEligPages` on a page with no eligible event descends into the
later pages, incrementing the page count. -/
theorem firstEligPages_cons_none (incl : Bool) (p : List Dict)
    (ps : List (List Dict)) (h : firstEligPage incl p = none) :
    firstEligPages incl (p :: ps) =
      (firstEligPages incl ps).map (fun q => (q.1, q.2.1, q.2.2.1, q.2.2.2 + 1)) := by
  rcases hfp : firstEligPages incl ps with _ | ⟨e, rest, ps', t⟩ <;>
    simp [firstEligPages, h, hfp]

/-- `firstEligPages` on a page holding an eligible event stops there. -/
theorem firstEligPages_cons_some (incl : Bool) (p : List Dict)
    (ps : List (List Dict)) (e : Dict) (rest : List Dict)
    (h : firstEligPage incl p = some (e, rest)) :
    firstEligPages incl (p :: ps) = some (e, rest, ps, 1) := by
  simp [firstEligPages, h]

theorem firstEligPages_none_filter (incl : Bool) :
    ∀ ps : List (List Dict), firstEligPages incl ps = none →
      ps.flatten.filter (keeps incl) = [] := by
  intro ps
  induction ps with
  | nil => intro _; rfl
  | cons p ps ih =>
    intro h
    rcases hfe : firstEligPage incl p with _ | ⟨e, rest⟩
    · rw [firstEligPages_cons_none incl p ps hfe] at h
      rcases hfp : firstEligPages incl ps with _ | q
      · simp [List.filter_append, firstEligPage_none_filter incl p hfe, ih hfp]
      · rw [hfp] at h
        simp at h
    · rw [firstEligPages_cons_some incl p ps e rest hfe] at h
      simp at h

theorem firstEligPages_some_spec (incl : Bool) :
    ∀ (ps : List (List Dict)) (e : Dict) (rest : List Dict)
      (ps' : List (List Dict)) (t : Nat),
      firstEligPages incl ps = some (e, rest, ps', t) →
      ps.flatten.filter (keeps incl)
        = e :: (rest.filter (keeps incl) ++ ps'.flatten.filter (keeps incl))
      ∧ keeps incl e = true
      ∧ (wfPages ps = true → wfEvent e = true ∧ wfPage rest = true ∧ wfPages ps' = true)
      ∧ ps.length = t + ps'.length
      ∧ 1 ≤ t := by
  intro ps
  induction ps with
  | nil => intro e rest ps' t h; simp [firstEligPages] at h
  | cons p ps ih =>
    intro e rest ps' t h
    rcases hfe : firstEligPage incl p with _ | ⟨e₀, rest₀⟩
    · rw [firstEligPages_cons_none incl p ps hfe] at h
      rcases hfp : firstEligPages incl ps with _ | ⟨e₁, rest₁, ps₁, t₁⟩
      · rw [hfp] at h
        simp at h
      · rw [hfp] at h
        simp only [Option.map_some', Option.some.injEq, Prod.mk.injEq] at h
        obtain ⟨he, hrest, hps, ht⟩ := h
        subst he; subst hrest; subst hps; subst ht
        obtain ⟨h1, h2, h3, h4, h5⟩ := ih e₁ rest₁ ps₁ t₁ hfp
        refine ⟨?_, h2, ?_, ?_, by omega⟩
        · simp [List.filter_append, firstEligPage_none_filter incl p hfe, h1]
        · intro hwf
          exact h3 ((wfPages_cons _ _).1 hwf).2
        · simp only [List.length_cons, h4]
          omega
    · rw [firstEligPages_cons_some incl p ps e₀ rest₀ hfe] at h
      simp only [Option.some.injEq, Prod.mk.injEq] at h
      obtain ⟨he, hrest, hps, ht⟩ := h
      subst he; subst hrest; subst hps; subst ht
      obtain ⟨h1, h2, h3⟩ := firstEligPage_some_spec incl p e₀ rest₀ hfe
      refine ⟨?_, h2, ?_, by simp [Nat.add_comm], le_refl 1⟩
      · simp [List.filter_append, h1]
      · intro hwf
        have hw := (wfPages_cons _ _).1 hwf
        exact ⟨(h3 hw.1).1, (h3 hw.1).2, hw.2⟩

/-! ### `pagesNeeded` bookkeeping -/

/-- Pages still to be requested in order to see `m` more events surviving the
filter, from a state whose current page still holds `cur` and whose
un-requested pages are `ps`. -/
def pagesNeededS (incl : Bool) (m : Nat) (cur : List Dict) (ps : List (List Dict)) : Nat :=
  if m ≤ eligCount incl cur then 0 else pagesNeeded incl (m - eligCount incl cur) ps

theorem pagesNeededS_zero (incl : Bool) (cur : List Dict) (ps : List (List Dict)) :
    pagesNeededS incl 0 cur ps = 0 := by
  simp [pagesNeededS]

theorem eligCount_cons_of_first (incl : Bool) (p : List Dict) (e : Dict)
    (rest : List Dict) (h : firstEligPage incl p = some (e, rest)) :
    eligCount incl p = 1 + eligCount incl rest := by
  have h1 := (firstEligPage_some_spec incl p e rest h).1
  simp only [eligCount, h1, List.length_cons]
  omega

theorem eligCount_zero_of_none (incl : Bool) (p : List Dict)
    (h : firstEligPage incl p = none) : eligCount incl p = 0 := by
  simp [eligCount, firstEligPage_none_filter incl p h]

theorem pagesNeededS_step_cur (incl : Bool) (m : Nat) (hm : 1 ≤ m)
    (cur : List Dict) (ps : List (List Dict)) (e : Dict) (rest : List Dict)
    (h : firstEligPage incl cur = some (e, rest)) :
    pagesNeededS incl m cur ps = pagesNeededS incl (m - 1) rest ps := by
  have hc := eligCount_cons_of_first incl cur e rest h
  unfold pagesNeededS
  rw [hc]
  by_cases hle : m ≤ 1 + eligCount incl rest
  · rw [if_pos hle, if_pos (by omega)]
  · rw [if_neg hle, if_neg (by omega)]
    congr 1
    omega

theorem pagesNeeded_step (incl : Bool) :
    ∀ (ps : List (List Dict)) (e : Dict) (rest : List Dict)
      (ps' : List (List Dict)) (t : Nat),
      firstEligPages incl ps = some (e, rest, ps', t) →
      ∀ m : Nat, 1 ≤ m →
        pagesNeeded incl m ps = t + pagesNeededS incl (m - 1) rest ps' := by
  intro ps
  induction ps with
  | nil => intro e rest ps' t h; simp [firstEligPages] at h
  | cons p ps ih =>
    intro e rest ps' t h m hm
    rcases hfe : firstEligPage incl p with _ | ⟨e₀, rest₀⟩
    · rw [firstEligPages_cons_none incl p ps hfe] at h
      rcases hfp : firstEligPages incl ps with _ | ⟨e₁, rest₁, ps₁, t₁⟩
      · rw [hfp] at h
        simp at h
      · rw [hfp] at h
        simp only [Option.map_some', Option.some.injEq, Prod.mk.injEq] at h
        obtain ⟨he, hrest, hps, ht⟩ := h
        subst he; subst hrest; subst hps; subst ht
        have hc0 := eligCount_zero_of_none incl p hfe
        have hstep := ih e₁ rest₁ ps₁ t₁ hfp m hm
        unfold pagesNeeded
        rw [hc0, if_neg (by omega)]
        have hmm : m - 0 = m := by omega
        rw [hmm, hstep]
        omega
    · rw [firstEligPages_cons_some incl p ps e₀ rest₀ hfe] at h
      simp only [Option.some.injEq, Prod.mk.injEq] at h
      obtain ⟨he, hrest, hps, ht⟩ := h
      subst he; subst hrest; subst hps; subst ht
      have hc := eligCount_cons_of_first incl p e₀ rest₀ hfe
      unfold pagesNeeded pagesNeededS
      rw [hc]
      by_cases hle : m ≤ 1 + eligCount incl rest₀
      · rw [if_pos hle, if_pos (by omega)]
      · rw [if_neg hle, if_neg (by omega)]
        have heq : m - (1 + eligCount incl rest₀) = m - 1 - eligCount incl rest₀ := by
          omega
        rw [heq]

theorem pagesNeededS_step_pages (incl : Bool) (m : Nat) (hm : 1 ≤ m)
    (cur : List Dict) (ps : List (List Dict)) (e : Dict) (rest : List Dict)
    (ps' : List (List Dict)) (t : Nat)
    (hcur : firstEligPage incl cur = none)
    (h : firstEligPages incl ps = some (e, rest, ps', t)) :
    pagesNeededS incl m cur ps = t + pagesNeededS incl (m - 1) rest ps' := by
  have hc0 := eligCount_zero_of_none incl cur hcur
  unfold pagesNeededS
  rw [hc0, if_neg (by omega)]
  have hmm : m - 0 = m := by omega
  rw [hmm]
  have hstep := pagesNeeded_step incl ps e rest ps' t h m hm
  rw [hstep]
  rfl

/-! ### The scan functions under well-formed input -/

theorem scanEvents_wf (incl : Bool) :
    ∀ p : List Dict, wfPage p = true →
      scanEvents incl p =
        .ok ((firstEligPage incl p).map (fun q => (normOk q.1, q.2))) := by
  intro p
  induction p with
  | nil => intro _; simp [scanEvents, firstEligPage]
  | cons e rest ih =>
    intro hwf
    obtain ⟨he, hrest⟩ := (wfPage_cons e rest).1 hwf
    cases incl with
    | true =>
      simp [scanEvents, normalizeEvent_wf e he, firstEligPage, keeps]
    | false =>
      cases hlam : isLambdaMsgB e with
      | true =>
        have hk : keeps false e = false := by
          simp [keeps, hlam]
        simp [scanEvents, is_lambda_message_wf e he, hlam, ih hrest, firstEligPage, hk]
      | false =>
        have hk : keeps false e = true := by
          simp [keeps, hlam]
        simp [scanEvents, is_lambda_message_wf e he, hlam, normalizeEvent_wf e he,
          firstEligPage, hk]

theorem scanPages_wf (incl : Bool) :
    ∀ ps : List (List Dict), wfPages ps = true →
      scanPages incl ps =
        .ok ((firstEligPages incl ps).map
          (fun q => (normOk q.1, q.2.1, q.2.2.1, q.2.2.2))) := by
  intro ps
  induction ps with
  | nil => intro _; simp [scanPages, firstEligPages]
  | cons p ps ih =>
    intro hwf
    obtain ⟨hp, hps⟩ := (wfPages_cons p ps).1 hwf
    rcases hfe : firstEligPage incl p with _ | ⟨e, rest⟩
    · rw [firstEligPages_cons_none incl p ps hfe]
      rcases hfp : firstEligPages incl ps with _ | ⟨e₁, rest₁, ps₁, t₁⟩
      · simp [scanPages, scanEvents_wf incl p hp, hfe, ih hps, hfp]
      · simp [scanPages, scanEvents_wf incl p hp, hfe, ih hps, hfp]
    · rw [firstEligPages_cons_some incl p ps e rest hfe]
      simp [scanPages, scanEvents_wf incl p hp, hfe]

/-! ### One pull under well-formed input -/

/-- A pull made after the cap has been reached yields nothing and leaves the
state untouched: in the source, `shown >= max_entries` makes the generator
`return` immediately upon resumption, before requesting anything. -/
theorem next_capped (incl : Bool) (max_entries : Option Int) (s : GenState)
    (h : capReached max_entries s.shown = true) :
    next incl max_entries s = .ok (none, s) := by
  simp [next, h]

theorem capReached_zero (max_entries : Option Int) :
    capReached max_entries 0 = false := by
  cases max_entries <;> simp [capReached]

theorem capReached_false_of_lt (k : Int) (sh : Nat) (hk : 0 < k)
    (h : sh < k.toNat) : capReached (some k) sh = false := by
  simp only [capReached, Bool.and_eq_false_iff]
  right
  simp only [decide_eq_false_iff_not, not_le]
  omega

theorem capReached_true_of_le (k : Int) (sh : Nat) (h0 : 0 < sh)
    (h : k ≤ (sh : Int)) : capReached (some k) sh = true := by
  simp [capReached, h0, h]

/-- One pull from a well-formed, un-capped state: it yields the normalized
first eligible event (advancing past it and counting the pages loaded on the
way), or ends the sequence after exhausting every remaining page. -/
theorem next_wf (incl : Bool) (max_entries : Option Int)
    (ps : List (List Dict)) (cur : List Dict) (sh pr : Nat)
    (hcap : capReached max_entries sh = false)
    (hwc : wfPage cur = true) (hwp : wfPages ps = true) :
    next incl max_entries ⟨ps, cur, sh, pr⟩ =
      match firstEligPage incl cur with
      | some (e, rest) => .ok (some (normOk e), ⟨ps, rest, sh + 1, pr⟩)
      | none =>
        match firstEligPages incl ps with
        | none => .ok (none, ⟨[], [], sh, pr + ps.length⟩)
        | some (e, rest, ps', t) =>
          .ok (some (normOk e), ⟨ps', rest, sh + 1, pr + t⟩) := by
  unfold next
  rw [hcap]
  simp only [Bool.false_eq_true, if_false]
  rw [scanEvents_wf incl cur hwc]
  rcases hfe : firstEligPage incl cur with _ | ⟨e, rest⟩
  · rw [scanPages_wf incl ps hwp]
    rcases hfp : firstEligPages incl ps with _ | ⟨e₁, rest₁, ps₁, t₁⟩ <;> simp
  · simp

/-! ### Full runs of the generator -/

/-- Once the cap is reached every further pull ends the sequence at once. -/
theorem run_stopped (incl : Bool) (max_entries : Option Int) (fuel : Nat)
    (s : GenState) (h : capReached max_entries s.shown = true) (hf : 1 ≤ fuel) :
    runWithFuel incl max_entries fuel s = ([], s, none) := by
  cases fuel with
  | zero => omega
  | succ f => simp [runWithFuel, next_capped incl max_entries s h]

theorem totalElig_split (incl : Bool) (ps : List (List Dict)) (e : Dict)
    (rest : List Dict) (ps' : List (List Dict)) (t : Nat)
    (h : firstEligPages incl ps = some (e, rest, ps', t)) :
    totalElig incl ps = 1 + eligCount incl rest + totalElig incl ps' := by
  have h1 := (firstEligPages_some_spec incl ps e rest ps' t h).1
  simp only [totalElig, eligCount, h1, List.length_cons, List.length_append]
  omega

/-- Uncapped run: with `max_entries = None` and enough fuel, the generator
yields the normalized form of every event surviving the filter, in delivery
order, requests every page, and ends normally. -/
theorem run_nocap (incl : Bool) :
    ∀ (fuel : Nat) (ps : List (List Dict)) (cur : List Dict) (sh pr : Nat),
      wfPage cur = true → wfPages ps = true →
      eligCount incl cur + totalElig incl ps + 1 ≤ fuel →
      runWithFuel incl none fuel ⟨ps, cur, sh, pr⟩ =
        ((cur.filter (keeps incl) ++ ps.flatten.filter (keeps incl)).map normOk,
         ⟨[], [], sh + (eligCount incl cur + totalElig incl ps), pr + ps.length⟩,
         none) := by
  intro fuel
  induction fuel with
  | zero => intro ps cur sh pr _ _ hf; omega
  | succ f ih =>
    intro ps cur sh pr hwc hwp hf
    have hcap : capReached none sh = false := capReached_zero none
    rw [runWithFuel, next_wf incl none ps cur sh pr hcap hwc hwp]
    rcases hfe : firstEligPage incl cur with _ | ⟨e, rest⟩
    · rcases hfp : firstEligPages incl ps with _ | ⟨e₁, rest₁, ps₁, t₁⟩
      · dsimp only
        have hc0 := eligCount_zero_of_none incl cur hfe
        have ht0 : totalElig incl ps = 0 := by
          simp [totalElig, eligCount, firstEligPages_none_filter incl ps hfp]
        rw [firstEligPage_none_filter incl cur hfe,
          firstEligPages_none_filter incl ps hfp, hc0, ht0]
        simp
      · dsimp only
        obtain ⟨h1, _, h3, h4, _⟩ := firstEligPages_some_spec incl ps e₁ rest₁ ps₁ t₁ hfp
        obtain ⟨hwe, hwrest, hwps'⟩ := h3 hwp
        have hc0 := eligCount_zero_of_none incl cur hfe
        have htot := totalElig_split incl ps e₁ rest₁ ps₁ t₁ hfp
        have hfuel : eligCount incl rest₁ + totalElig incl ps₁ + 1 ≤ f := by omega
        rw [ih ps₁ rest₁ (sh + 1) (pr + t₁) hwrest hwps' hfuel]
        dsimp only
        rw [firstEligPage_none_filter incl cur hfe, h1]
        have harith : sh + 1 + (eligCount incl rest₁ + totalElig incl ps₁)
            = sh + (eligCount incl cur + totalElig incl ps) := by omega
        have harith2 : pr + t₁ + ps₁.length = pr + ps.length := by omega
        rw [harith, harith2]
        simp
    · dsimp only
      obtain ⟨h1, _, h3⟩ := firstEligPage_some_spec incl cur e rest hfe
      obtain ⟨hwe, hwrest⟩ := h3 hwc
      have hcc := eligCount_cons_of_first incl cur e rest hfe
      have hfuel : eligCount incl rest + totalElig incl ps + 1 ≤ f := by omega
      rw [ih ps rest (sh + 1) pr hwrest hwp hfuel]
      dsimp only
      rw [h1]
      have harith : sh + 1 + (eligCount incl rest + totalElig incl ps)
          = sh + (eligCount incl cur + totalElig incl ps) := by omega
      rw [harith]
      simp

/-- Capped run: with `max_entries = k ≥ 1`, at least `k - shown` more
eligible events available and enough fuel, the generator yields exactly the
next `k - shown` normalized eligible events, requests exactly the pages
needed to reach the `k`-th one, and ends normally with the cap reached. -/
theorem run_cap (incl : Bool) (k : Int) (hk : 0 < k) :
    ∀ (fuel : Nat) (ps : List (List Dict)) (cur : List Dict) (sh pr : Nat),
      wfPage cur = true → wfPages ps = true →
      sh < k.toNat →
      k.toNat - sh ≤ eligCount incl cur + totalElig incl ps →
      k.toNat - sh + 1 ≤ fuel →
      ∃ curF psF,
        runWithFuel incl (some k) fuel ⟨ps, cur, sh, pr⟩ =
          (((cur.filter (keeps incl) ++ ps.flatten.filter (keeps incl)).map normOk).take
              (k.toNat - sh),
           ⟨psF, curF, k.toNat, pr + pagesNeededS incl (k.toNat - sh) cur ps⟩,
           none) := by
  intro fuel
  induction fuel with
  | zero => intro ps cur sh pr _ _ _ _ hf; omega
  | succ f ih =>
    intro ps cur sh pr hwc hwp hsh helig hf
    have hcap : capReached (some k) sh = false := capReached_false_of_lt k sh hk hsh
    rw [runWithFuel, next_wf incl (some k) ps cur sh pr hcap hwc hwp]
    rcases hfe : firstEligPage incl cur with _ | ⟨e, rest⟩
    · rcases hfp : firstEligPages incl ps with _ | ⟨e₁, rest₁, ps₁, t₁⟩
      · exfalso
        have hc0 := eligCount_zero_of_none incl cur hfe
        have ht0 : totalElig incl ps = 0 := by
          simp [totalElig, eligCount, firstEligPages_none_filter incl ps hfp]
        omega
      · dsimp only
        obtain ⟨h1, _, h3, h4, _⟩ := firstEligPages_some_spec incl ps e₁ rest₁ ps₁ t₁ hfp
        obtain ⟨hwe, hwrest, hwps'⟩ := h3 hwp
        have hc0 := eligCount_zero_of_none incl cur hfe
        have htot := totalElig_split incl ps e₁ rest₁ ps₁ t₁ hfp
        have hstep := pagesNeededS_step_pages incl (k.toNat - sh) (by omega)
          cur ps e₁ rest₁ ps₁ t₁ hfe hfp
        by_cases hlast : sh + 1 = k.toNat
        · have hcap' : capReached (some k) (sh + 1) = true := by
            refine capReached_true_of_le k (sh + 1) (by omega) ?_
            omega
          rw [run_stopped incl (some k) f ⟨ps₁, rest₁, sh + 1, pr + t₁⟩ hcap' (by omega)]
          refine ⟨rest₁, ps₁, ?_⟩
          have hone : k.toNat - sh = 1 := by omega
          have hpages : pr + pagesNeededS incl (k.toNat - sh) cur ps = pr + t₁ := by
            rw [hstep, hone]
            simp [pagesNeededS_zero]
          rw [firstEligPage_none_filter incl cur hfe, h1, hpages, hone, ← hlast]
          rfl
        · obtain ⟨curF, psF, hrun⟩ := ih ps₁ rest₁ (sh + 1) (pr + t₁) hwrest hwps'
            (by omega) (by omega) (by omega)
          rw [hrun]
          refine ⟨curF, psF, ?_⟩
          have hpages : pr + pagesNeededS incl (k.toNat - sh) cur ps
              = pr + t₁ + pagesNeededS incl (k.toNat - (sh + 1)) rest₁ ps₁ := by
            rw [hstep]
            have hm : k.toNat - sh - 1 = k.toNat - (sh + 1) := by omega
            rw [hm]
            omega
          have hm1 : k.toNat - sh = (k.toNat - (sh + 1)) + 1 := by omega
          rw [firstEligPage_none_filter incl cur hfe, h1, hpages, hm1]
          simp
    · dsimp only
      obtain ⟨h1, _, h3⟩ := firstEligPage_some_spec incl cur e rest hfe
      obtain ⟨hwe, hwrest⟩ := h3 hwc
      have hcc := eligCount_cons_of_first incl cur e rest hfe
      have hstep := pagesNeededS_step_cur incl (k.toNat - sh) (by omega) cur ps e rest hfe
      by_cases hlast : sh + 1 = k.toNat
      · have hcap' : capReached (some k) (sh + 1) = true := by
          refine capReached_true_of_le k (sh + 1) (by omega) ?_
          omega
        rw [run_stopped incl (some k) f ⟨ps, rest, sh + 1, pr⟩ hcap' (by omega)]
        refine ⟨rest, ps, ?_⟩
        have hone : k.toNat - sh = 1 := by omega
        have hpages : pr + pagesNeededS incl (k.toNat - sh) cur ps = pr := by
          rw [hstep, hone]
          simp [pagesNeededS_zero]
        rw [h1, hpages, hone, ← hlast]
        rfl
      · obtain ⟨curF, psF, hrun⟩ := ih ps rest (sh + 1) pr hwrest hwp
          (by omega) (by omega) (by omega)
        rw [hrun]
        refine ⟨curF, psF, ?_⟩
        have hpages : pr + pagesNeededS incl (k.toNat - sh) cur ps
            = pr + pagesNeededS incl (k.toNat - (sh + 1)) rest ps := by
          rw [hstep]
          have hm : k.toNat - sh - 1 = k.toNat - (sh + 1) := by omega
          rw [hm]
        have hm1 : k.toNat - sh = (k.toNat - (sh + 1)) + 1 := by omega
        rw [h1, hpages, hm1]
        simp

theorem totalElig_le_sum (incl : Bool) (ps : List (List Dict)) :
    totalElig incl ps ≤ (ps.map List.length).sum := by
  have h1 : totalElig incl ps ≤ ps.flatten.length := by
    simpa [totalElig, eligCount] using List.length_filter_le (keeps incl) ps.flatten
  simpa [List.length_flatten] using h1

theorem runWithFuel_one (incl : Bool) (max_entries : Option Int) (s : GenState) :
    runWithFuel incl max_entries 1 s =
      match next incl max_entries s with
      | .error err => ([], s, some err)
      | .ok (none, s') => ([], s', none)
      | .ok (some d, s') => ([d], s', none) := rfl

theorem runWithFuel_succ (incl : Bool) (max_entries : Option Int) (f : Nat)
    (s : GenState) :
    runWithFuel incl max_entries (f + 1) s =
      match next incl max_entries s with
      | .error err => ([], s, some err)
      | .ok (none, s') => ([], s', none)
      | .ok (some d, s') =>
        match runWithFuel incl max_entries f s' with
        | (l, s'', r) => (d :: l, s'', r) := rfl

/-- C1: with `max_entries = k > 0` and at least `k` post-filter events
available from the source, `retrieve_logs` yields exactly the first `k`
normalized eligible events and no more; the traversal ends normally (no
error), exactly the pages needed for those `k` events are requested, and a
further pull terminates the sequence immediately without touching the
paginator again. -/
theorem c1_cap_exact (incl : Bool) (k : Int) (pages : List (List Dict))
    (hk : 0 < k) (hwf : wfPages pages = true)
    (helig : k.toNat ≤ totalElig incl pages) :
    (retrieve_logs incl (some k) pages).1
      = ((pages.flatten.filter (keeps incl)).map normOk).take k.toNat
    ∧ (retrieve_logs incl (some k) pages).1.length = k.toNat
    ∧ (retrieve_logs incl (some k) pages).2.2 = none
    ∧ (retrieve_logs incl (some k) pages).2.1.pagesRequested
        = pagesNeeded incl k.toNat pages
    ∧ (retrieve_logs incl (some k) pages).2.1.shown = k.toNat
    ∧ next incl (some k) (retrieve_logs incl (some k) pages).2.1
        = .ok (none, (retrieve_logs incl (some k) pages).2.1) := by
  have hknat : 0 < k.toNat := by omega
  have hsum := totalElig_le_sum incl pages
  have hfuel : k.toNat - 0 + 1 ≤ totalFuel pages := by
    simp only [totalFuel]
    omega
  obtain ⟨curF, psF, hrun⟩ := run_cap incl k hk (totalFuel pages) pages [] 0 0
    rfl hwf (by omega) (by simpa [eligCount] using helig) hfuel
  have hre : retrieve_logs incl (some k) pages =
      (((List.filter (keeps incl) [] ++ List.filter (keeps incl) pages.flatten).map normOk).take
          (k.toNat - 0),
       ⟨psF, curF, k.toNat, 0 + pagesNeededS incl (k.toNat - 0) [] pages⟩, none) := hrun
  have hres : retrieve_logs incl (some k) pages =
      (((pages.flatten.filter (keeps incl)).map normOk).take k.toNat,
       ⟨psF, curF, k.toNat, pagesNeeded incl k.toNat pages⟩, none) := by
    rw [hre]
    have hp : (0:Nat) + pagesNeededS incl (k.toNat - 0) [] pages
        = pagesNeeded incl k.toNat pages := by
      simp only [Nat.sub_zero, Nat.zero_add, pagesNeededS, eligCount,
        List.filter_nil, List.length_nil]
      rw [if_neg (by omega)]
    rw [hp]
    simp
  have hlen : (((pages.flatten.filter (keeps incl)).map normOk).take k.toNat).length
      = k.toNat := by
    rw [List.length_take, List.length_map]
    have : (pages.flatten.filter (keeps incl)).length = totalElig incl pages := by
      simp [totalElig, eligCount]
    omega
  refine ⟨by rw [hres], by rw [hres]; exact hlen, by rw [hres], by rw [hres],
    by rw [hres], ?_⟩
  rw [hres]
  refine next_capped incl (some k) _ ?_
  refine capReached_true_of_le k k.toNat (by omega) ?_
  omega

/-- Witness for C1: two pages, the first holding an application event and a
Lambda `START` event, the second another application event; with filtering on
and `max_entries = 2` exactly two events come out, and both pages are
requested because the second eligible event sits on page 2. -/
theorem c1_cap_exact_witness :
    (retrieve_logs false (some 2) [[sampleEvent, sampleLambdaEvent], [sampleEventB]]).1.length = 2
    ∧ (retrieve_logs false (some 2) [[sampleEvent, sampleLambdaEvent], [sampleEventB]]).2.2 = none
    ∧ (retrieve_logs false (some 2) [[sampleEvent, sampleLambdaEvent], [sampleEventB]]).2.1.pagesRequested
        = pagesNeeded false 2 [[sampleEvent, sampleLambdaEvent], [sampleEventB]] := by
  have h := c1_cap_exact false 2 [[sampleEvent, sampleLambdaEvent], [sampleEventB]]
    (by decide) (by decide) (by decide)
  exact ⟨h.2.1, h.2.2.1, h.2.2.2.1⟩

/-- C2: with `include_lambda_messages = false` (and no cap), an event is
absent from the output exactly when its whitespace-stripped message starts
with `"START RequestId"`, `"END RequestId"` or `"REPORT RequestId"`; all
other events are normalized and yielded in delivery order, and the sequence
ends normally. -/
theorem c2_filtering (pages : List (List Dict)) (hwf : wfPages pages = true) :
    (retrieve_logs false none pages).1 =
      (pages.flatten.filter (fun e =>
        !(startswith "START RequestId".toList (pyStrip (strAt e msgK)) ||
          startswith "END RequestId".toList (pyStrip (strAt e msgK)) ||
          startswith "REPORT RequestId".toList (pyStrip (strAt e msgK))))).map normOk
    ∧ (retrieve_logs false none pages).2.2 = none := by
  have hpred : keeps false = (fun e : Dict =>
      !(startswith "START RequestId".toList (pyStrip (strAt e msgK)) ||
        startswith "END RequestId".toList (pyStrip (strAt e msgK)) ||
        startswith "REPORT RequestId".toList (pyStrip (strAt e msgK)))) := by
    funext e
    simp [keeps, isLambdaMsgB]
  have hsum := totalElig_le_sum false pages
  have hfuel : eligCount false ([] : List Dict) + totalElig false pages + 1
      ≤ totalFuel pages := by
    simp only [totalFuel, eligCount, List.filter_nil, List.length_nil]
    omega
  have hrun := run_nocap false (totalFuel pages) pages [] 0 0 rfl hwf hfuel
  have hre : retrieve_logs false none pages =
      ((List.filter (keeps false) [] ++ List.filter (keeps false) pages.flatten).map normOk,
       ⟨[], [], 0 + (eligCount false [] + totalElig false pages), 0 + pages.length⟩,
       none) := hrun
  rw [hre, ← hpred]
  constructor
  · simp
  · rfl

/-- Witness for C2: the Lambda `START` event is dropped, the two application
events come out normalized in delivery order, and the run ends without
error. -/
theorem c2_filtering_witness :
    (retrieve_logs false none [[sampleEvent, sampleLambdaEvent], [sampleEventB]]).1
      = [normOk sampleEvent, normOk sampleEventB]
    ∧ (retrieve_logs false none [[sampleEvent, sampleLambdaEvent], [sampleEventB]]).2.2
      = none := by
  have h := c2_filtering [[sampleEvent, sampleLambdaEvent], [sampleEventB]] (by decide)
  refine ⟨?_, h.2⟩
  rw [h.1]
  decide

/-- C9: laziness — when the first page holds at least one further qualifying
event after the first, a consumer that pulls only the first element causes
exactly one page request, gets exactly one (normalized) event, sees no error,
and the later pages play no role in what is yielded. -/
theorem c9_lazy_first_pull (incl : Bool) (max_entries : Option Int)
    (p1 : List Dict) (ps : List (List Dict))
    (hwf : wfPage p1 = true) (h2 : 2 ≤ eligCount incl p1) :
    (consume incl max_entries 1 (p1 :: ps)).2.1.pagesRequested = 1
    ∧ (consume incl max_entries 1 (p1 :: ps)).1.length = 1
    ∧ (consume incl max_entries 1 (p1 :: ps)).1 = (consume incl max_entries 1 [p1]).1
    ∧ (consume incl max_entries 1 (p1 :: ps)).2.2 = none := by
  rcases hfe : firstEligPage incl p1 with _ | ⟨e, rest⟩
  · exfalso
    have := eligCount_zero_of_none incl p1 hfe
    omega
  · have hscanE : scanEvents incl p1 = .ok (some (normOk e, rest)) := by
      rw [scanEvents_wf incl p1 hwf, hfe]
      rfl
    have hnil : scanEvents incl ([] : List Dict) = .ok none := rfl
    have hnext : ∀ qs : List (List Dict),
        next incl max_entries ⟨p1 :: qs, [], 0, 0⟩
          = .ok (some (normOk e), ⟨qs, rest, 1, 1⟩) := by
      intro qs
      unfold next
      rw [capReached_zero]
      dsimp only
      rw [hnil]
      dsimp only
      have hscanP : scanPages incl (p1 :: qs) = .ok (some (normOk e, rest, qs, 1)) := by
        unfold scanPages
        rw [hscanE]
      rw [hscanP]
      rfl
    have hc1 : consume incl max_entries 1 (p1 :: ps)
        = ([normOk e], ⟨ps, rest, 1, 1⟩, none) := by
      show runWithFuel incl max_entries 1 ⟨p1 :: ps, [], 0, 0⟩ = _
      rw [runWithFuel_one, hnext ps]
    have hc2 : consume incl max_entries 1 [p1]
        = ([normOk e], ⟨[], rest, 1, 1⟩, none) := by
      show runWithFuel incl max_entries 1 ⟨[p1], [], 0, 0⟩ = _
      rw [runWithFuel_one, hnext []]
    rw [hc1, hc2]
    exact ⟨rfl, rfl, rfl, rfl⟩

/-- Witness for C9 on a concrete two-page source whose first page has two
qualifying events. -/
theorem c9_lazy_first_pull_witness :
    (consume false none 1 [[sampleEvent, sampleEventB], [sampleLambdaEvent]]).2.1.pagesRequested = 1
    ∧ (consume false none 1 [[sampleEvent, sampleEventB], [sampleLambdaEvent]]).1.length = 1 := by
  have h := c9_lazy_first_pull false none [sampleEvent, sampleEventB]
    [[sampleLambdaEvent]] (by decide) (by decide)
  exact ⟨h.1, h.2.1⟩

/-- C10: with `max_entries = k ≤ 0` and at least one eligible event, the
sequence still yields exactly one event before terminating normally: the
running count is compared against `max_entries` only after an event has been
yielded. -/
theorem c10_nonpositive_cap (incl : Bool) (k : Int) (pages : List (List Dict))
    (hk : k ≤ 0) (hwf : wfPages pages = true)
    (he : 1 ≤ totalElig incl pages) :
    (retrieve_logs incl (some k) pages).1.length = 1
    ∧ (retrieve_logs incl (some k) pages).2.2 = none := by
  rcases hfp : firstEligPages incl pages with _ | ⟨e, rest, ps', t⟩
  · exfalso
    have h0 : totalElig incl pages = 0 := by
      simp [totalElig, eligCount, firstEligPages_none_filter incl pages hfp]
    omega
  · have hnext : next incl (some k) ⟨pages, [], 0, 0⟩
        = .ok (some (normOk e), ⟨ps', rest, 1, t⟩) := by
      rw [next_wf incl (some k) pages [] 0 0 (capReached_zero _) rfl hwf]
      dsimp only [firstEligPage]
      rw [hfp]
      simp
    have hsum := totalElig_le_sum incl pages
    rcases hS : (pages.map List.length).sum with _ | S0
    · exfalso
      rw [hS] at hsum
      omega
    · have hfuelEq : totalFuel pages = S0 + 1 + 1 := by
        simp [totalFuel, hS]
      have hstop : runWithFuel incl (some k) (S0 + 1) ⟨ps', rest, 1, t⟩
          = ([], ⟨ps', rest, 1, t⟩, none) := by
        refine run_stopped incl (some k) (S0 + 1) _ ?_ (by omega)
        exact capReached_true_of_le k 1 (by omega) (by omega)
      have hres : retrieve_logs incl (some k) pages
          = ([normOk e], ⟨ps', rest, 1, t⟩, none) := by
        show runWithFuel incl (some k) (totalFuel pages) ⟨pages, [], 0, 0⟩ = _
        rw [hfuelEq, runWithFuel_succ, hnext]
        dsimp only
        rw [hstop]
      rw [hres]
      exact ⟨rfl, rfl⟩

/-- Witness for C10 at `max_entries = 0` on a source with two eligible
events: exactly one event is yielded. -/
theorem c10_nonpositive_cap_witness :
    (retrieve_logs true (some 0) [[sampleEvent, sampleEventB]]).1.length = 1
    ∧ (retrieve_logs true (some 0) [[sampleEvent, sampleEventB]]).2.2 = none :=
  c10_nonpositive_cap true 0 [[sampleEvent, sampleEventB]] (by decide) (by decide)
    (by decide)

end ChaliceLogs
